import Mathlib

/-!
Verification of the browsing-metrics aggregator in
`backend/app/api/v1/endpoints/metrics.py`.

The aggregator is embedded shallowly: each Python helper
(`_quick_categorize`, `_fmt`, `_quick_insights`, `_empty_metrics`) and the
aggregation loop of `_fetch_and_calculate_metrics` becomes a Lean function
over explicit data. Python dictionaries keep insertion order, so the
per-site dictionary is an association list with new keys appended at the
end; `sorted(..., reverse=True)` is a stable descending sort, modelled by
`List.insertionSort` with the reversed comparison. The counters and totals
are unbounded Python integers, so `Nat` is exact for them; the percent
expressions `int(tv / total_time * 100)` go through IEEE-754 binary64
division and multiplication, modelled bit-for-bit by `pyPct` below. The
insight strings carry the exact (mojibake) characters present in the
source file.
-/

/-- One row of the `browsing_history` query result, as consumed by the
aggregation loop. Fields are optional because the loop reads them with
`item.get(..., default)`. -/
structure BrowsingRecord where
  platform : Option String
  visit_count : Option Nat
  time_spent_seconds : Option Nat
  deriving DecidableEq, Repr

/-- Python's `str.lower()`, restricted to ASCII case-folding (every rule
substring below is plain ASCII), computed through the character list. -/
def strLower (s : String) : String :=
  ⟨s.toList.map Char.toLower⟩

/-- Python's list/character prefix test, specialised to `List Char`. -/
def charsPre : List Char → List Char → Bool
  | [], _ => true
  | _ :: _, [] => false
  | a :: as, b :: bs => a == b && charsPre as bs

/-- Python's `sub in hay` substring test on character lists. -/
def charsContain (sub : List Char) : List Char → Bool
  | [] => sub.isEmpty
  | c :: rest => charsPre sub (c :: rest) || charsContain sub rest

/-- `strContains hay sub` models the Python expression `sub in hay`. -/
def strContains (hay sub : String) : Bool :=
  charsContain sub.toList hay.toList

/-- `anyIn p subs` models `any(x in p for x in subs)`. -/
def anyIn (p : String) (subs : List String) : Bool :=
  subs.any (fun x => strContains p x)

/-- The four category buckets used by `_quick_categorize`. -/
inductive Category where
  | productive
  | entertainment
  | shopping
  | other
  deriving DecidableEq, Repr

/-- `_quick_categorize`: ordered, case-insensitive substring tests on the
platform string; the first matching rule decides the category and no match
falls through to `other`. -/
def quickCategorize (platform : String) : Category :=
  let p := strLower platform
  if anyIn p ["github", "stackoverflow", "vscode", "gitlab", "replit", "codesandbox"] then
    Category.productive
  else if anyIn p ["notion", "docs.google", "sheets.google", "trello", "asana", "figma"] then
    Category.productive
  else if anyIn p ["youtube", "netflix", "instagram", "twitter", "tiktok", "facebook", "reddit"] then
    Category.entertainment
  else if anyIn p ["amazon", "shop", "ebay", "walmart"] then
    Category.shopping
  else if anyIn p ["gmail", "mail", "linkedin", "outlook", "calendar"] then
    Category.other
  else
    Category.other

/-- `_fmt`: format a millisecond count as `"{h}h {m}m"` or `"{m}m"`. -/
def fmt (ms : Nat) : String :=
  let m := ms / 60000
  let h := m / 60
  if h > 0 then s!"{h}h {m % 60}m" else s!"{m}m"

/-- The productivity-tier message for `score > 60` (source line 207). -/
def crushMsg (score : Nat) : String :=
  s!"ğŸ’» {score}% productive - crushing it!"

/-- The productivity-tier message for `60 >= score > 30` (source line 209). -/
def balancedMsg (score : Nat) : String :=
  s!"âš–ï¸ {score}% productive - balanced"

/-- The productivity-tier message for `score <= 30` (source line 211). -/
def wastingMsg (score : Nat) : String :=
  s!"ğŸš© {score}% productive - mostly time-wasting!"

/-- `_quick_insights`: one tier message keyed by the score, then an optional
flag message keyed by substring tests on the lowered top-site string. -/
def quickInsights (score : Nat) (top_site : String) : List String :=
  let tier :=
    if score > 60 then crushMsg score
    else if score > 30 then balancedMsg score
    else wastingMsg score
  let siteMsgs :=
    if top_site ≠ "" then
      let site_lower := strLower top_site
      if anyIn site_lower ["chatgpt", "claude", "openai", "bard"] then
        [s!"ğŸš© Top site: {top_site} - AI dependency detected"]
      else if anyIn site_lower ["instagram", "twitter", "tiktok", "facebook"] then
        [s!"ğŸš© Top site: {top_site} - social media addict"]
      else if anyIn site_lower ["youtube", "netflix", "twitch"] then
        [s!"ğŸš© Top site: {top_site} - video binge mode"]
      else if strContains site_lower "linkedin" then
        [s!"ğŸš© Top site: {top_site} - fake networking alert"]
      else if anyIn site_lower ["gmail", "mail", "outlook"] then
        [s!"ğŸš© Top site: {top_site} - inbox checking addiction"]
      else
        [s!"ğŸ“ Top site: {top_site}"]
    else []
  [tier] ++ siteMsgs

/-- Per-platform bucket `{"v": ..., "t": ..., "c": ...}`. -/
structure SiteData where
  v : Nat
  t : Nat
  c : Category
  deriving DecidableEq, Repr

/-- The category accumulator `cats`, initialised with the four fixed keys. -/
structure Cats where
  productive : Nat
  entertainment : Nat
  shopping : Nat
  other : Nat
  deriving DecidableEq, Repr

/-- Read one bucket of the category accumulator. -/
def Cats.get (cs : Cats) : Category → Nat
  | Category.productive => cs.productive
  | Category.entertainment => cs.entertainment
  | Category.shopping => cs.shopping
  | Category.other => cs.other

/-- `cats[c] = cats.get(c, 0) + t`. -/
def Cats.add (cs : Cats) (c : Category) (t : Nat) : Cats :=
  match c with
  | Category.productive => { cs with productive := cs.productive + t }
  | Category.entertainment => { cs with entertainment := cs.entertainment + t }
  | Category.shopping => { cs with shopping := cs.shopping + t }
  | Category.other => { cs with other := cs.other + t }

/-- Total time held across the four category buckets. -/
def Cats.total (cs : Cats) : Nat :=
  cs.productive + cs.entertainment + cs.shopping + cs.other

/-- The insertion-ordered `sites` dictionary: create the bucket (with its
category computed once) if the platform is new, else add into it. -/
def updateSites (sites : List (String × SiteData)) (p : String) (v t : Nat) :
    List (String × SiteData) :=
  match sites with
  | [] => [(p, ⟨v, t, quickCategorize p⟩)]
  | (q, d) :: rest =>
    if q = p then (q, ⟨d.v + v, d.t + t, d.c⟩) :: rest
    else (q, d) :: updateSites rest p v t

/-- Dictionary lookup `sites[p]`. -/
def findSite (sites : List (String × SiteData)) (p : String) : Option SiteData :=
  match sites with
  | [] => none
  | (q, d) :: rest => if q = p then some d else findSite rest p

/-- State of the aggregation loop in `_fetch_and_calculate_metrics`. -/
structure AggState where
  sites : List (String × SiteData)
  cats : Cats
  total_time : Nat
  total_visits : Nat
  deriving DecidableEq, Repr

/-- `sites = {}`, `cats` all zero, totals zero. -/
def initState : AggState :=
  ⟨[], ⟨0, 0, 0, 0⟩, 0, 0⟩

/-- One iteration of the `for item in result.data` loop: default the three
fields, bump the totals, update the site bucket, and add the time into the
category stored in that bucket. -/
def stepRecord (st : AggState) (item : BrowsingRecord) : AggState :=
  let p := item.platform.getD "unknown"
  let v := item.visit_count.getD 1
  let t := item.time_spent_seconds.getD 0 * 1000
  let sites := updateSites st.sites p v t
  let c := ((findSite sites p).map (fun d => d.c)).getD Category.other
  ⟨sites, st.cats.add c t, st.total_time + t, st.total_visits + v⟩

/-- The whole aggregation loop. -/
def aggregate (records : List BrowsingRecord) : AggState :=
  records.foldl stepRecord initState

/-- Comparison used by `sorted(sites.items(), key=..., reverse=True)`:
`a` may come before `b` exactly when `a`'s time is at least `b`'s. -/
def siteOrder (a b : String × SiteData) : Prop :=
  b.2.t ≤ a.2.t

instance : DecidableRel siteOrder :=
  fun _ _ => Nat.decLe _ _

instance : IsTotal (String × SiteData) siteOrder :=
  ⟨fun a b => le_total b.2.t a.2.t⟩

instance : IsTrans (String × SiteData) siteOrder :=
  ⟨fun _ _ _ hab hbc => le_trans hbc hab⟩

/-- `top = sorted(sites.items(), key=lambda x: x[1]["t"], reverse=True)[:3]`,
a stable descending sort followed by truncation to three entries. -/
def topSitesOf (st : AggState) : List (String × SiteData) :=
  (List.insertionSort siteOrder st.sites).take 3

/-! The percent expressions at source lines 142 and 152 are evaluated in
IEEE-754 binary64: CPython divides the two integers to the correctly
rounded double (round to nearest, ties to even), multiplies by the exact
double `100`, rounding again, and `int(...)` truncates toward zero. The
functions below model that pipeline exactly over unbounded naturals,
keeping exponents unbounded, so they are bit-for-bit the program's
arithmetic whenever no double overflow or underflow occurs (every ratio
down to `2 ^ (-1022)`, i.e. any input whose total stays below about
`10 ^ 307` milliseconds). -/

/-- Fuel-driven floor of the binary logarithm (`log2Aux n n` is exact for
every `n ≥ 1`; the fuel only drives the recursion). -/
def log2Aux : Nat → Nat → Nat
  | 0, _ => 0
  | fuel + 1, n => if 2 ≤ n then log2Aux fuel (n / 2) + 1 else 0

/-- Floor of the binary logarithm of a natural number. -/
def nlog2 (n : Nat) : Nat := log2Aux n n

/-- Round `num / den` to the nearest integer, ties to even (`den > 0`):
the rounding step of every binary64 operation. -/
def rne (num den : Nat) : Nat :=
  let q := num / den
  let r := num % den
  if den < 2 * r then q + 1
  else if 2 * r < den then q
  else if q % 2 = 0 then q else q + 1

/-- Decide `2 ^ d ≤ a / b` over the rationals, in integer arithmetic. -/
def ratioGE (a b : Nat) (d : Int) : Bool :=
  if 0 ≤ d then b * 2 ^ d.toNat ≤ a else b ≤ a * 2 ^ (-d).toNat

/-- The binade of `a / b` (for `a, b ≥ 1`): the unique `e` with
`2 ^ e ≤ a / b < 2 ^ (e + 1)`. -/
def ratioExp (a b : Nat) : Int :=
  let d : Int := (nlog2 a : Int) - (nlog2 b : Int)
  if ratioGE a b d then d else d - 1

/-- Correctly rounded binary64 quotient of `a / b` (CPython's int-by-int
true division), as significand and exponent: value `sig * 2 ^ (e - 52)`. -/
def flDivSig (a b : Nat) : Nat × Int :=
  let e := ratioExp a b
  let sig := if e ≤ 52 then rne (a * 2 ^ (52 - e).toNat) b
             else rne a (b * 2 ^ (e - 52).toNat)
  (sig, e - 52)

/-- Correctly rounded binary64 product of `m * 2 ^ e` with the exact
double `100`. -/
def flMul100 (m : Nat) (e : Int) : Nat × Int :=
  let p := 100 * m
  let L := nlog2 p + 1
  if L ≤ 53 then (p, e)
  else (rne p (2 ^ (L - 53)), e + (L - 53))

/-- Floor of `m * 2 ^ e` — the `int(...)` truncation (values here are
non-negative). -/
def dyFloor (m : Nat) (e : Int) : Nat :=
  if 0 ≤ e then m * 2 ^ e.toNat else m / 2 ^ (-e).toNat

/-- `int(tv / total * 100)` in binary64, `total > 0`: divide with correct
rounding, multiply by 100 with correct rounding, truncate. -/
def pyPct (tv total : Nat) : Nat :=
  if tv = 0 then 0
  else
    let x := flDivSig tv total
    let y := flMul100 x.1 x.2
    dyFloor y.1 y.2

/-- `int((tv / total_time * 100)) if total_time > 0 else 0` (source line
152), with the parenthesised expression evaluated in binary64. -/
def catPercent (tv total : Nat) : Nat :=
  if total > 0 then pyPct tv total else 0

/-- `prod_score = int((cats.get("productive", 0) / total_time * 100)) if
total_time > 0 else 0` (source line 142), binary64 like `catPercent`. -/
def prodScore (cs : Cats) (total : Nat) : Nat :=
  if total > 0 then pyPct cs.productive total else 0

/-- The `overview` object of the report. -/
structure Overview where
  total_sites : Nat
  total_visits : Nat
  total_time : String
  productivity_score : Nat
  deriving DecidableEq, Repr

/-- One entry of the `top_sites` list of the report. -/
structure TopSite where
  site : String
  time : String
  visits : Nat
  category : Category
  deriving DecidableEq, Repr

/-- One value of the `categories` mapping of the report. -/
structure CatEntry where
  time : String
  percent : Nat
  deriving DecidableEq, Repr

/-- The value returned by `_fetch_and_calculate_metrics`. -/
structure MetricsReport where
  overview : Overview
  top_sites : List TopSite
  categories : List (Category × CatEntry)
  insights : List String
  deriving DecidableEq, Repr

/-- `_empty_metrics`: the canonical empty report. Its single insight string
begins with the four characters that the source file holds in place of the
chart emoji. -/
def emptyMetrics : MetricsReport :=
  ⟨⟨0, 0, "0m", 0⟩, [], [],
   ["ğŸ“Š No data yet - start browsing!"]⟩

/-- The `categories` dict comprehension: iterate the four fixed keys in
insertion order and keep the buckets with nonzero time. -/
def buildCategories (cs : Cats) (total : Nat) : List (Category × CatEntry) :=
  (if cs.productive > 0 then
    [(Category.productive, ⟨fmt cs.productive, catPercent cs.productive total⟩)] else [])
  ++ (if cs.entertainment > 0 then
    [(Category.entertainment, ⟨fmt cs.entertainment, catPercent cs.entertainment total⟩)] else [])
  ++ (if cs.shopping > 0 then
    [(Category.shopping, ⟨fmt cs.shopping, catPercent cs.shopping total⟩)] else [])
  ++ (if cs.other > 0 then
    [(Category.other, ⟨fmt cs.other, catPercent cs.other total⟩)] else [])

/-- `_fetch_and_calculate_metrics` after the database query: empty input
short-circuits to the empty report, otherwise aggregate, rank, score and
render. -/
def computeMetrics (records : List BrowsingRecord) : MetricsReport :=
  if records.isEmpty then emptyMetrics
  else
    let st := aggregate records
    let top := topSitesOf st
    let score := prodScore st.cats st.total_time
    { overview := ⟨st.sites.length, st.total_visits, fmt st.total_time, score⟩
      top_sites := top.map (fun x => ⟨x.1, fmt x.2.t, x.2.v, x.2.c⟩)
      categories := buildCategories st.cats st.total_time
      insights := quickInsights score (match top with | [] => "" | x :: _ => x.1) }

/-! Reference quantities, defined directly from the record list, used to
state the claims independently of the aggregation loop. -/

/-- Total milliseconds across a record list. -/
def totalTimeMs (records : List BrowsingRecord) : Nat :=
  (records.map (fun r => r.time_spent_seconds.getD 0 * 1000)).sum

/-- Total visits across a record list. -/
def totalVisitsRef (records : List BrowsingRecord) : Nat :=
  (records.map (fun r => r.visit_count.getD 1)).sum

/-- Milliseconds attributed to one category across a record list. -/
def catTimeRef (c : Category) (records : List BrowsingRecord) : Nat :=
  (records.map (fun r =>
    if quickCategorize (r.platform.getD "unknown") = c then
      r.time_spent_seconds.getD 0 * 1000
    else 0)).sum

/-! Spec-side definitions, written from the specification's words, used only
to compare against the definitions above. -/

/-- The ordered rule table of spec section 4.1. -/
def ruleTable : List (List String × Category) :=
  [(["github", "stackoverflow", "vscode", "gitlab", "replit", "codesandbox"], Category.productive),
   (["notion", "docs.google", "sheets.google", "trello", "asana", "figma"], Category.productive),
   (["youtube", "netflix", "instagram", "twitter", "tiktok", "facebook", "reddit"], Category.entertainment),
   (["amazon", "shop", "ebay", "walmart"], Category.shopping),
   (["gmail", "mail", "linkedin", "outlook", "calendar"], Category.other)]

/-- First-match-wins over an ordered rule list; no match defaults to
`other`. -/
def firstMatch (p : String) : List (List String × Category) → Category
  | [] => Category.other
  | (subs, c) :: rest => if anyIn p subs then c else firstMatch p rest

/-- The spec's description of classification: first-match-wins over the
ordered rule table, case-insensitive, default `other`. -/
def specCategorize (platform : String) : Category :=
  firstMatch (strLower platform) ruleTable

/-- The spec's description of the time formatter: total minutes by floor
division, hours from minutes, render with or without the hour part. -/
def fmtSpec (ms : Nat) : String :=
  let minutes := ms / 60000
  let hours := minutes / 60
  if hours > 0 then s!"{hours}h {minutes % 60}m" else s!"{minutes}m"

/-! ## Lemmas about the aggregation loop -/

/-- Unfolding lemma: the loop state's total time grows by the record sum. -/
theorem foldl_total_time (records : List BrowsingRecord) :
    ∀ st : AggState,
      (records.foldl stepRecord st).total_time = st.total_time + totalTimeMs records := by
  induction records with
  | nil => intro st; simp [totalTimeMs]
  | cons r rs ih =>
    intro st
    rw [List.foldl_cons, ih]
    simp [stepRecord, totalTimeMs]
    omega

/-- Unfolding lemma: the loop state's total visits grow by the record sum. -/
theorem foldl_total_visits (records : List BrowsingRecord) :
    ∀ st : AggState,
      (records.foldl stepRecord st).total_visits = st.total_visits + totalVisitsRef records := by
  induction records with
  | nil => intro st; simp [totalVisitsRef]
  | cons r rs ih =>
    intro st
    rw [List.foldl_cons, ih]
    simp [stepRecord, totalVisitsRef]
    omega

theorem aggregate_total_time (records : List BrowsingRecord) :
    (aggregate records).total_time = totalTimeMs records := by
  simpa [aggregate, initState] using foldl_total_time records initState

theorem aggregate_total_visits (records : List BrowsingRecord) :
    (aggregate records).total_visits = totalVisitsRef records := by
  simpa [aggregate, initState] using foldl_total_visits records initState

/-- Adding into one category bucket raises the four-bucket total by the same
amount. -/
theorem Cats.total_add (cs : Cats) (c : Category) (t : Nat) :
    (cs.add c t).total = cs.total + t := by
  cases c <;> simp [Cats.add, Cats.total] <;> omega

/-- The four-bucket total tracks the total time through the loop. -/
theorem foldl_cats_total (records : List BrowsingRecord) :
    ∀ st : AggState,
      ((records.foldl stepRecord st).cats).total = st.cats.total + totalTimeMs records := by
  induction records with
  | nil => intro st; simp [totalTimeMs]
  | cons r rs ih =>
    intro st
    rw [List.foldl_cons, ih]
    simp [stepRecord, Cats.total_add, totalTimeMs]
    omega

theorem aggregate_cats_total (records : List BrowsingRecord) :
    ((aggregate records).cats).total = (aggregate records).total_time := by
  rw [aggregate_total_time]
  simpa [aggregate, initState, Cats.total] using foldl_cats_total records initState

/-- Sum of the per-site visit counters. -/
def sumVisits (sites : List (String × SiteData)) : Nat :=
  (sites.map (fun x => x.2.v)).sum

/-- A dictionary update adds exactly `v` to the per-site visit sum. -/
theorem sumVisits_updateSites (sites : List (String × SiteData)) (p : String) (v t : Nat) :
    sumVisits (updateSites sites p v t) = sumVisits sites + v := by
  induction sites with
  | nil => simp [updateSites, sumVisits]
  | cons e rest ih =>
    obtain ⟨q, d⟩ := e
    have ih' := ih
    simp only [sumVisits, List.map_cons, List.sum_cons] at ih' ⊢
    by_cases h : q = p <;> simp [updateSites, h] <;> omega

theorem foldl_sumVisits (records : List BrowsingRecord) :
    ∀ st : AggState,
      sumVisits ((records.foldl stepRecord st).sites) =
        sumVisits st.sites + totalVisitsRef records := by
  induction records with
  | nil => intro st; simp [totalVisitsRef]
  | cons r rs ih =>
    intro st
    rw [List.foldl_cons, ih]
    simp [stepRecord, sumVisits_updateSites, totalVisitsRef]
    omega

theorem aggregate_sumVisits (records : List BrowsingRecord) :
    sumVisits ((aggregate records).sites) = (aggregate records).total_visits := by
  rw [aggregate_total_visits]
  simpa [aggregate, initState, sumVisits] using foldl_sumVisits records initState

/-- Invariant of the `sites` dictionary: every bucket carries the category
computed from its own key. -/
def SitesInv (sites : List (String × SiteData)) : Prop :=
  ∀ e ∈ sites, e.2.c = quickCategorize e.1

theorem sitesInv_nil : SitesInv [] := by
  intro e he
  cases he

theorem sitesInv_updateSites {sites : List (String × SiteData)} (p : String) (v t : Nat)
    (h : SitesInv sites) : SitesInv (updateSites sites p v t) := by
  induction sites with
  | nil =>
    intro e he
    simp [updateSites] at he
    subst he
    rfl
  | cons hd rest ih =>
    obtain ⟨q, d⟩ := hd
    have hhd : d.c = quickCategorize q := h (q, d) (by simp)
    have htl : SitesInv rest := fun e he => h e (by simp [he])
    intro e he
    by_cases hq : q = p
    · subst hq
      simp [updateSites] at he
      rcases he with he | he
      · subst he; simpa using hhd
      · exact htl e he
    · simp [updateSites, hq] at he
      rcases he with he | he
      · subst he; simpa using hhd
      · exact ih htl e he

/-- After an update for platform `p`, looking `p` up yields a bucket whose
category is `quickCategorize p`. -/
theorem findSite_updateSites {sites : List (String × SiteData)} (p : String) (v t : Nat)
    (h : SitesInv sites) :
    ((findSite (updateSites sites p v t) p).map (fun d => d.c)).getD Category.other =
      quickCategorize p := by
  induction sites with
  | nil => simp [updateSites, findSite]
  | cons hd rest ih =>
    obtain ⟨q, d⟩ := hd
    have hhd : d.c = quickCategorize q := h (q, d) (by simp)
    have htl : SitesInv rest := fun e he => h e (by simp [he])
    by_cases hq : q = p
    · subst hq
      simp [updateSites, findSite, hhd]
    · simp [updateSites, findSite, hq]
      exact ih htl

/-- With the invariant in force, one loop iteration adds the record's time
into the bucket named by `quickCategorize` of the record's platform. -/
theorem stepRecord_cats {st : AggState} (item : BrowsingRecord) (h : SitesInv st.sites) :
    (stepRecord st item).cats =
      st.cats.add (quickCategorize (item.platform.getD "unknown"))
        (item.time_spent_seconds.getD 0 * 1000) := by
  simp [stepRecord, findSite_updateSites _ _ _ h]

theorem stepRecord_sitesInv {st : AggState} (item : BrowsingRecord) (h : SitesInv st.sites) :
    SitesInv (stepRecord st item).sites := by
  simpa [stepRecord] using sitesInv_updateSites _ _ _ h

/-- Reading a bucket after `Cats.add`. -/
theorem Cats.get_add (cs : Cats) (c c' : Category) (t : Nat) :
    (cs.add c' t).get c = cs.get c + (if c' = c then t else 0) := by
  cases c <;> cases c' <;> simp [Cats.add, Cats.get]

theorem foldl_cats_get (c : Category) (records : List BrowsingRecord) :
    ∀ st : AggState, SitesInv st.sites →
      ((records.foldl stepRecord st).cats).get c = st.cats.get c + catTimeRef c records := by
  induction records with
  | nil => intro st _; simp [catTimeRef]
  | cons r rs ih =>
    intro st h
    rw [List.foldl_cons, ih _ (stepRecord_sitesInv r h), stepRecord_cats r h, Cats.get_add]
    simp [catTimeRef]
    split <;> omega

theorem aggregate_cats_get (c : Category) (records : List BrowsingRecord) :
    ((aggregate records).cats).get c = catTimeRef c records := by
  have h := foldl_cats_get c records initState sitesInv_nil
  have h0 : (initState.cats).get c = 0 := by cases c <;> rfl
  rw [aggregate, h, h0, Nat.zero_add]

/-! ## Lemmas about percentages and the categories mapping -/


/-! ## Upper bounds for the binary64 percent pipeline -/

theorem log2Aux_spec : ∀ (fuel n : Nat), n ≤ fuel → 1 ≤ n →
    2 ^ log2Aux fuel n ≤ n ∧ n < 2 ^ (log2Aux fuel n + 1) := by
  intro fuel
  induction fuel with
  | zero => intro n h1 h2; omega
  | succ f ih =>
    intro n hle h1
    by_cases h2 : 2 ≤ n
    · have hdiv : n / 2 < n := Nat.div_lt_self (by omega) (by omega)
      have hm1 : 1 ≤ n / 2 := by omega
      have hm2 : n / 2 ≤ f := by omega
      obtain ⟨ha, hb⟩ := ih (n / 2) hm2 hm1
      simp only [log2Aux, if_pos h2]
      constructor
      · have : 2 ^ (log2Aux f (n / 2) + 1) = 2 * 2 ^ log2Aux f (n / 2) := by ring
        rw [this]
        omega
      · have : 2 ^ (log2Aux f (n / 2) + 1 + 1) = 2 * 2 ^ (log2Aux f (n / 2) + 1) := by ring
        rw [this]
        omega
    · simp only [log2Aux, if_neg h2]
      omega

theorem nlog2_le {n : Nat} (h : 1 ≤ n) : 2 ^ nlog2 n ≤ n :=
  (log2Aux_spec n n Nat.le.refl h).1

theorem nlog2_lt {n : Nat} (h : 1 ≤ n) : n < 2 ^ (nlog2 n + 1) :=
  (log2Aux_spec n n Nat.le.refl h).2

theorem rne_le (num den : Nat) (hden : 0 < den) :
    (rne num den : ℚ) ≤ (num : ℚ) / den + 1 / 2 := by
  have hd : (0 : ℚ) < den := by exact_mod_cast hden
  have hmod : num % den < den := Nat.mod_lt _ hden
  have hdm : den * (num / den) + num % den = num := Nat.div_add_mod num den
  have hq : (den : ℚ) * ((num / den : Nat) : ℚ) + ((num % den : Nat) : ℚ) = (num : ℚ) := by
    exact_mod_cast hdm
  have hnd : (num : ℚ) / den = ((num / den : Nat) : ℚ) + ((num % den : Nat) : ℚ) / den := by
    field_simp
    linarith
  simp only [rne]
  split_ifs with h1 h2 h3
  · have hr : (den : ℚ) < 2 * ((num % den : Nat) : ℚ) := by exact_mod_cast h1
    have : (1 : ℚ) / 2 ≤ ((num % den : Nat) : ℚ) / den := by
      rw [div_le_div_iff₀ (by norm_num) hd]
      linarith
    push_cast
    rw [hnd]
    linarith
  · have : (0 : ℚ) ≤ ((num % den : Nat) : ℚ) / den := by positivity
    push_cast
    rw [hnd]
    linarith
  · have : (0 : ℚ) ≤ ((num % den : Nat) : ℚ) / den := by positivity
    push_cast
    rw [hnd]
    linarith
  · have hr : (den : ℚ) = 2 * ((num % den : Nat) : ℚ) := by
      have : 2 * (num % den) = den := by omega
      exact_mod_cast this.symm
    have : (1 : ℚ) / 2 ≤ ((num % den : Nat) : ℚ) / den := by
      rw [div_le_div_iff₀ (by norm_num) hd]
      linarith
    push_cast
    rw [hnd]
    linarith

def flVal (p : Nat × Int) : ℚ := (p.1 : ℚ) * (2 : ℚ) ^ p.2

def relErr : ℚ := 1 / 9007199254740992

theorem two_zpow_pos (e : Int) : (0 : ℚ) < (2 : ℚ) ^ e :=
  zpow_pos (by norm_num) e

theorem ratioGE_holds {a b : Nat} {d : Int} (hb : 0 < b) (h : ratioGE a b d = true) :
    (2 : ℚ) ^ d ≤ (a : ℚ) / b := by
  have hbq : (0 : ℚ) < b := by exact_mod_cast hb
  unfold ratioGE at h
  split_ifs at h with hd
  · have hle : (b : ℚ) * ((2 : ℚ) ^ d.toNat) ≤ a := by
      have := of_decide_eq_true h
      exact_mod_cast this
    rw [le_div_iff₀ hbq]
    calc (2 : ℚ) ^ d * b = b * (2 : ℚ) ^ d.toNat := by
          rw [← zpow_natCast (2 : ℚ) d.toNat, Int.toNat_of_nonneg hd]; ring
      _ ≤ a := hle
  · have hle : (b : ℚ) ≤ (a : ℚ) * ((2 : ℚ) ^ (-d).toNat) := by
      have := of_decide_eq_true h
      exact_mod_cast this
    have hkd : ((2 : ℚ) ^ (-d).toNat) = (2 : ℚ) ^ (-d) := by
      rw [← zpow_natCast (2 : ℚ) (-d).toNat, Int.toNat_of_nonneg (by omega)]
    rw [le_div_iff₀ hbq]
    have h2 : (0 : ℚ) < (2 : ℚ) ^ (-d) := two_zpow_pos _
    have : (2 : ℚ) ^ d * ((2 : ℚ) ^ (-d)) = 1 := by
      rw [← zpow_add₀ (by norm_num : (2:ℚ) ≠ 0)]; simp
    calc (2 : ℚ) ^ d * b ≤ (2 : ℚ) ^ d * (a * (2 : ℚ) ^ (-d)) := by
          rw [hkd] at hle
          exact mul_le_mul_of_nonneg_left hle (le_of_lt (two_zpow_pos d))
      _ = a * ((2 : ℚ) ^ d * (2 : ℚ) ^ (-d)) := by ring
      _ = a := by rw [this]; ring

theorem ratioExp_le {a b : Nat} (ha : 1 ≤ a) (hb : 1 ≤ b) :
    (2 : ℚ) ^ ratioExp a b ≤ (a : ℚ) / b := by
  have hbq : (0 : ℚ) < b := by exact_mod_cast hb
  unfold ratioExp
  by_cases h : ratioGE a b ((nlog2 a : Int) - (nlog2 b : Int)) = true
  · rw [if_pos h]
    exact ratioGE_holds hb h
  · rw [if_neg h]
    have h1 : ((2 : Nat) ^ nlog2 a : ℚ) ≤ a := by exact_mod_cast nlog2_le ha
    have h2 : (b : ℚ) ≤ ((2 : Nat) ^ (nlog2 b + 1) : ℚ) := by
      have := nlog2_lt hb
      exact_mod_cast le_of_lt this
    have hp1 : ((2 : Nat) ^ nlog2 a : ℚ) = (2 : ℚ) ^ (nlog2 a : Int) := by
      push_cast
      rw [← zpow_natCast (2 : ℚ) (nlog2 a)]
    have hp2 : ((2 : Nat) ^ (nlog2 b + 1) : ℚ) = (2 : ℚ) ^ ((nlog2 b : Int) + 1) := by
      push_cast
      rw [← zpow_natCast (2 : ℚ) (nlog2 b + 1)]
      norm_num
    have h1q : (2 : ℚ) ^ ((nlog2 a : Int)) ≤ (a : ℚ) := by rw [← hp1]; exact h1
    have h2q : (b : ℚ) ≤ (2 : ℚ) ^ ((nlog2 b : Int) + 1) := by rw [← hp2]; exact h2
    have hstep : (2 : ℚ) ^ ((nlog2 a : Int)) / (2 : ℚ) ^ ((nlog2 b : Int) + 1) ≤ (a : ℚ) / b := by
      exact div_le_div₀ (by positivity) h1q hbq h2q
    calc (2 : ℚ) ^ ((nlog2 a : Int) - (nlog2 b : Int) - 1)
        = (2 : ℚ) ^ ((nlog2 a : Int)) / (2 : ℚ) ^ ((nlog2 b : Int) + 1) := by
          rw [← zpow_sub₀ (by norm_num : (2:ℚ) ≠ 0)]
          congr 1
          ring
      _ ≤ (a : ℚ) / b := hstep

theorem zpow_neg53_eq : (2 : ℚ) ^ (-53 : Int) = relErr := by
  rw [relErr, zpow_neg]
  norm_num

theorem flDivSig_le {a b : Nat} (ha : 1 ≤ a) (hb : 1 ≤ b) :
    flVal (flDivSig a b) ≤ (a : ℚ) / b * (1 + relErr) := by
  have hbq : (0 : ℚ) < b := by exact_mod_cast hb
  have hval : flVal (flDivSig a b) =
      ((if ratioExp a b ≤ 52 then rne (a * 2 ^ ((52 : Int) - ratioExp a b).toNat) b
        else rne a (b * 2 ^ (ratioExp a b - 52).toNat) : Nat) : ℚ) *
        (2 : ℚ) ^ (ratioExp a b - 52) := rfl
  have hsig : ((if ratioExp a b ≤ 52 then rne (a * 2 ^ ((52 : Int) - ratioExp a b).toNat) b
      else rne a (b * 2 ^ (ratioExp a b - 52).toNat) : Nat) : ℚ) ≤
      (a : ℚ) / b * (2 : ℚ) ^ ((52 : Int) - ratioExp a b) + 1 / 2 := by
    split_ifs with hcase
    · have hr := rne_le (a * 2 ^ ((52 : Int) - ratioExp a b).toNat) b hb
      have hcast : ((a * 2 ^ ((52 : Int) - ratioExp a b).toNat : Nat) : ℚ) =
          (a : ℚ) * (2 : ℚ) ^ ((52 : Int) - ratioExp a b) := by
        push_cast
        rw [← zpow_natCast (2 : ℚ), Int.toNat_of_nonneg (by omega)]
      rw [hcast] at hr
      calc ((rne (a * 2 ^ ((52 : Int) - ratioExp a b).toNat) b : Nat) : ℚ) ≤
          (a : ℚ) * (2 : ℚ) ^ ((52 : Int) - ratioExp a b) / b + 1 / 2 := hr
        _ = (a : ℚ) / b * (2 : ℚ) ^ ((52 : Int) - ratioExp a b) + 1 / 2 := by ring
    · have hdenpos : 0 < b * 2 ^ (ratioExp a b - 52).toNat := by positivity
      have hr := rne_le a (b * 2 ^ (ratioExp a b - 52).toNat) hdenpos
      have hcast : ((b * 2 ^ (ratioExp a b - 52).toNat : Nat) : ℚ) =
          (b : ℚ) * (2 : ℚ) ^ (ratioExp a b - 52) := by
        push_cast
        rw [← zpow_natCast (2 : ℚ), Int.toNat_of_nonneg (by omega)]
      rw [hcast] at hr
      have hswap : (a : ℚ) / ((b : ℚ) * (2 : ℚ) ^ (ratioExp a b - 52)) =
          (a : ℚ) / b * (2 : ℚ) ^ ((52 : Int) - ratioExp a b) := by
        rw [div_mul_eq_div_div]
        rw [div_eq_mul_inv ((a : ℚ) / b), ← zpow_neg]
        congr 1
        ring_nf
      rw [hswap] at hr
      exact hr
  have hE1 : (2 : ℚ) ^ ((52 : Int) - ratioExp a b) * (2 : ℚ) ^ (ratioExp a b - 52) = 1 := by
    rw [← zpow_add₀ (by norm_num : (2 : ℚ) ≠ 0)]
    norm_num
  have hE2 : (1 / 2 : ℚ) * (2 : ℚ) ^ (ratioExp a b - 52) = (2 : ℚ) ^ (ratioExp a b - 53) := by
    have : (2 : ℚ) ^ (ratioExp a b - 53) =
        (2 : ℚ) ^ (ratioExp a b - 52) * (2 : ℚ) ^ (-1 : Int) := by
      rw [← zpow_add₀ (by norm_num : (2 : ℚ) ≠ 0)]
      congr 1
      ring
    rw [this, zpow_neg_one]
    ring_nf
  have hE3 : (2 : ℚ) ^ (ratioExp a b - 53) ≤ (a : ℚ) / b * relErr := by
    have hsplit : (2 : ℚ) ^ (ratioExp a b - 53) =
        (2 : ℚ) ^ (ratioExp a b) * (2 : ℚ) ^ (-53 : Int) := by
      rw [← zpow_add₀ (by norm_num : (2 : ℚ) ≠ 0)]
      all_goals exact congrArg (fun t : Int => (2 : ℚ) ^ t) (by omega)
    rw [hsplit, zpow_neg53_eq]
    exact mul_le_mul_of_nonneg_right (ratioExp_le ha hb) (by rw [relErr]; norm_num)
  rw [hval]
  calc ((if ratioExp a b ≤ 52 then rne (a * 2 ^ ((52 : Int) - ratioExp a b).toNat) b
        else rne a (b * 2 ^ (ratioExp a b - 52).toNat) : Nat) : ℚ) *
        (2 : ℚ) ^ (ratioExp a b - 52)
      ≤ ((a : ℚ) / b * (2 : ℚ) ^ ((52 : Int) - ratioExp a b) + 1 / 2) *
        (2 : ℚ) ^ (ratioExp a b - 52) :=
        mul_le_mul_of_nonneg_right hsig (le_of_lt (two_zpow_pos _))
    _ = (a : ℚ) / b * ((2 : ℚ) ^ ((52 : Int) - ratioExp a b) * (2 : ℚ) ^ (ratioExp a b - 52)) +
        (1 / 2 : ℚ) * (2 : ℚ) ^ (ratioExp a b - 52) := by ring
    _ = (a : ℚ) / b + (2 : ℚ) ^ (ratioExp a b - 53) := by rw [hE1, hE2]; ring
    _ ≤ (a : ℚ) / b + (a : ℚ) / b * relErr := by linarith
    _ = (a : ℚ) / b * (1 + relErr) := by ring

theorem flMul100_le (m : Nat) (e : Int) :
    flVal (flMul100 m e) ≤ 100 * ((m : ℚ) * (2 : ℚ) ^ e) * (1 + relErr) := by
  rcases Nat.eq_zero_or_pos m with hm | hm
  · subst hm
    have : flVal (flMul100 0 e) = 0 := by
      simp [flMul100, nlog2, log2Aux, flVal]
    rw [this]
    norm_num
  · have hp : 1 ≤ 100 * m := by omega
    by_cases hL : nlog2 (100 * m) + 1 ≤ 53
    · have hval : flVal (flMul100 m e) = ((100 * m : Nat) : ℚ) * (2 : ℚ) ^ e := by
        simp only [flMul100, flVal]
        rw [if_pos hL]
      rw [hval]
      have hbase : (0 : ℚ) ≤ ((100 * m : Nat) : ℚ) * (2 : ℚ) ^ e := by
        have := two_zpow_pos e
        positivity
      calc ((100 * m : Nat) : ℚ) * (2 : ℚ) ^ e
          ≤ ((100 * m : Nat) : ℚ) * (2 : ℚ) ^ e * (1 + relErr) := by
            apply le_mul_of_one_le_right hbase
            rw [relErr]; norm_num
        _ = 100 * ((m : ℚ) * (2 : ℚ) ^ e) * (1 + relErr) := by push_cast; ring
    · have hk52 : 53 ≤ nlog2 (100 * m) := by omega
      have hval : flVal (flMul100 m e) =
          ((rne (100 * m) (2 ^ (nlog2 (100 * m) + 1 - 53)) : Nat) : ℚ) *
            (2 : ℚ) ^ (e + (((nlog2 (100 * m) + 1 : Nat) : Int) - 53)) := by
        simp only [flMul100, flVal]
        rw [if_neg hL]
      have hexp : e + (((nlog2 (100 * m) + 1 : Nat) : Int) - 53) =
          e + ((nlog2 (100 * m) + 1 - 53 : Nat) : Int) := by omega
      rw [hexp] at hval
      have hdenpos : 0 < 2 ^ (nlog2 (100 * m) + 1 - 53) := Nat.pos_pow_of_pos _ (by omega)
      have hr := rne_le (100 * m) (2 ^ (nlog2 (100 * m) + 1 - 53)) hdenpos
      have hcastden : (((2 : ℕ) ^ (nlog2 (100 * m) + 1 - 53) : Nat) : ℚ) =
          (2 : ℚ) ^ (nlog2 (100 * m) + 1 - 53 : ℕ) := by push_cast; ring
      rw [hcastden] at hr
      have hknat : nlog2 (100 * m) + 1 - 53 + 52 = nlog2 (100 * m) := by omega
      have hpk : (2 : ℕ) ^ (nlog2 (100 * m) + 1 - 53 + 52) ≤ 100 * m := by
        rw [hknat]
        exact nlog2_le hp
      have hpkq : (2 : ℚ) ^ (nlog2 (100 * m) + 1 - 53 + 52 : ℕ) ≤ ((100 * m : Nat) : ℚ) := by
        exact_mod_cast hpk
      have hpow52 : (2 : ℚ) ^ (nlog2 (100 * m) + 1 - 53 + 52 : ℕ) =
          (2 : ℚ) ^ (nlog2 (100 * m) + 1 - 53 : ℕ) * 4503599627370496 := by
        rw [pow_add]
        norm_num
      have hpkq2 : (2 : ℚ) ^ (nlog2 (100 * m) + 1 - 53 : ℕ) * 4503599627370496 ≤
          ((100 * m : Nat) : ℚ) := by
        rw [← hpow52]
        exact hpkq
      have hhalf : (1 / 2 : ℚ) * (2 : ℚ) ^ (nlog2 (100 * m) + 1 - 53 : ℕ) ≤
          ((100 * m : Nat) : ℚ) * relErr := by
        rw [relErr]
        linarith
      have hzsplit : (2 : ℚ) ^ (e + ((nlog2 (100 * m) + 1 - 53 : Nat) : Int)) =
          (2 : ℚ) ^ e * (2 : ℚ) ^ (nlog2 (100 * m) + 1 - 53 : ℕ) := by
        rw [zpow_add₀ (by norm_num : (2 : ℚ) ≠ 0)]
        rw [zpow_natCast]
      have hnum : ((100 * m : Nat) : ℚ) / (2 : ℚ) ^ (nlog2 (100 * m) + 1 - 53 : ℕ) *
          (2 : ℚ) ^ (nlog2 (100 * m) + 1 - 53 : ℕ) = ((100 * m : Nat) : ℚ) := by
        field_simp
      have hepos : (0 : ℚ) < (2 : ℚ) ^ e := two_zpow_pos e
      rw [hval, hzsplit]
      calc ((rne (100 * m) (2 ^ (nlog2 (100 * m) + 1 - 53)) : Nat) : ℚ) *
            ((2 : ℚ) ^ e * (2 : ℚ) ^ (nlog2 (100 * m) + 1 - 53 : ℕ))
          ≤ (((100 * m : Nat) : ℚ) / (2 : ℚ) ^ (nlog2 (100 * m) + 1 - 53 : ℕ) + 1 / 2) *
            ((2 : ℚ) ^ e * (2 : ℚ) ^ (nlog2 (100 * m) + 1 - 53 : ℕ)) := by
            apply mul_le_mul_of_nonneg_right hr
            positivity
        _ = (((100 * m : Nat) : ℚ) / (2 : ℚ) ^ (nlog2 (100 * m) + 1 - 53 : ℕ) *
              (2 : ℚ) ^ (nlog2 (100 * m) + 1 - 53 : ℕ) +
              (1 / 2 : ℚ) * (2 : ℚ) ^ (nlog2 (100 * m) + 1 - 53 : ℕ)) * (2 : ℚ) ^ e := by
            ring
        _ = (((100 * m : Nat) : ℚ) + (1 / 2 : ℚ) * (2 : ℚ) ^ (nlog2 (100 * m) + 1 - 53 : ℕ)) *
              (2 : ℚ) ^ e := by rw [hnum]
        _ ≤ (((100 * m : Nat) : ℚ) + ((100 * m : Nat) : ℚ) * relErr) * (2 : ℚ) ^ e := by
            apply mul_le_mul_of_nonneg_right _ (le_of_lt hepos)
            linarith
        _ = 100 * ((m : ℚ) * (2 : ℚ) ^ e) * (1 + relErr) := by push_cast; ring

theorem dyFloor_le (m : Nat) (e : Int) :
    ((dyFloor m e : Nat) : ℚ) ≤ (m : ℚ) * (2 : ℚ) ^ e := by
  unfold dyFloor
  split_ifs with h
  · have : ((m * 2 ^ e.toNat : Nat) : ℚ) = (m : ℚ) * (2 : ℚ) ^ e := by
      push_cast
      rw [← zpow_natCast (2 : ℚ) e.toNat, Int.toNat_of_nonneg h]
    rw [this]
  · have hcast : (((2 : ℕ) ^ (-e).toNat : Nat) : ℚ) = (2 : ℚ) ^ ((-e).toNat : ℕ) := by
      push_cast; ring
    calc ((m / 2 ^ (-e).toNat : Nat) : ℚ) ≤ (m : ℚ) / (((2 : ℕ) ^ (-e).toNat : Nat) : ℚ) :=
          Nat.cast_div_le
      _ = (m : ℚ) * (2 : ℚ) ^ e := by
        rw [hcast, div_eq_mul_inv, ← zpow_natCast (2 : ℚ) ((-e).toNat), ← zpow_neg]
        have hne : (-(((-e).toNat : Nat) : Int)) = e := by omega
        rw [hne]

theorem pyPct_le (tv total : Nat) (ht : 0 < total) :
    (pyPct tv total : ℚ) ≤
      100 * ((tv : ℚ) / total) * ((1 + relErr) * (1 + relErr)) := by
  rcases Nat.eq_zero_or_pos tv with htv | htv
  · subst htv
    simp [pyPct]
  · have hval : pyPct tv total =
        dyFloor (flMul100 (flDivSig tv total).1 (flDivSig tv total).2).1
          (flMul100 (flDivSig tv total).1 (flDivSig tv total).2).2 := by
      simp only [pyPct]
      rw [if_neg (by omega : ¬ tv = 0)]
    have h1 : ((pyPct tv total : Nat) : ℚ) ≤
        flVal (flMul100 (flDivSig tv total).1 (flDivSig tv total).2) := by
      rw [hval]
      exact dyFloor_le _ _
    have h2 := flMul100_le (flDivSig tv total).1 (flDivSig tv total).2
    have h3 := flDivSig_le (a := tv) (b := total) htv ht
    have hflx : ((flDivSig tv total).1 : ℚ) * (2 : ℚ) ^ (flDivSig tv total).2 =
        flVal (flDivSig tv total) := rfl
    rw [hflx] at h2
    have hfac : (0 : ℚ) ≤ 100 * (1 + relErr) := by rw [relErr]; norm_num
    calc ((pyPct tv total : Nat) : ℚ)
        ≤ flVal (flMul100 (flDivSig tv total).1 (flDivSig tv total).2) := h1
      _ ≤ 100 * flVal (flDivSig tv total) * (1 + relErr) := h2
      _ ≤ 100 * ((tv : ℚ) / total * (1 + relErr)) * (1 + relErr) := by
          have := mul_le_mul_of_nonneg_left h3 hfac
          calc 100 * flVal (flDivSig tv total) * (1 + relErr) =
              100 * (1 + relErr) * flVal (flDivSig tv total) := by ring
            _ ≤ 100 * (1 + relErr) * ((tv : ℚ) / total * (1 + relErr)) := this
            _ = 100 * ((tv : ℚ) / total * (1 + relErr)) * (1 + relErr) := by ring
      _ = 100 * ((tv : ℚ) / total) * ((1 + relErr) * (1 + relErr)) := by ring

theorem pyPct_le_100 {tv total : Nat} (hle : tv ≤ total) (ht : 0 < total) :
    pyPct tv total ≤ 100 := by
  have h := pyPct_le tv total ht
  have htq : (0 : ℚ) < total := by exact_mod_cast ht
  have hfrac : (tv : ℚ) / total ≤ 1 := by
    rw [div_le_one htq]
    exact_mod_cast hle
  have hfracpos : (0 : ℚ) ≤ (tv : ℚ) / total := by positivity
  have hC : (0 : ℚ) ≤ (1 + relErr) * (1 + relErr) := by rw [relErr]; norm_num
  have hlt : ((pyPct tv total : Nat) : ℚ) < 101 := by
    calc ((pyPct tv total : Nat) : ℚ)
        ≤ 100 * ((tv : ℚ) / total) * ((1 + relErr) * (1 + relErr)) := h
      _ ≤ 100 * 1 * ((1 + relErr) * (1 + relErr)) := by
          apply mul_le_mul_of_nonneg_right _ hC
          linarith
      _ < 101 := by rw [relErr]; norm_num
  have : pyPct tv total < 101 := by exact_mod_cast hlt
  omega

theorem four_pyPct_le {a b c d total : Nat} (hpos : 0 < total)
    (hsum : a + b + c + d = total) :
    pyPct a total + pyPct b total + pyPct c total + pyPct d total ≤ 100 := by
  have htq : (0 : ℚ) < total := by exact_mod_cast hpos
  have h1 := pyPct_le a total hpos
  have h2 := pyPct_le b total hpos
  have h3 := pyPct_le c total hpos
  have h4 := pyPct_le d total hpos
  have hsumq : (a : ℚ) + b + c + d = total := by exact_mod_cast hsum
  have hfrac : (a : ℚ) / total + (b : ℚ) / total + (c : ℚ) / total + (d : ℚ) / total = 1 := by
    rw [div_add_div_same, div_add_div_same, div_add_div_same, hsumq]
    exact div_self (ne_of_gt htq)
  have hlt : ((pyPct a total : Nat) : ℚ) + (pyPct b total : Nat) + (pyPct c total : Nat) +
      (pyPct d total : Nat) < 101 := by
    calc ((pyPct a total : Nat) : ℚ) + (pyPct b total : Nat) + (pyPct c total : Nat) +
        (pyPct d total : Nat)
        ≤ 100 * ((a : ℚ) / total) * ((1 + relErr) * (1 + relErr)) +
          100 * ((b : ℚ) / total) * ((1 + relErr) * (1 + relErr)) +
          100 * ((c : ℚ) / total) * ((1 + relErr) * (1 + relErr)) +
          100 * ((d : ℚ) / total) * ((1 + relErr) * (1 + relErr)) := by linarith
      _ = 100 * ((a : ℚ) / total + (b : ℚ) / total + (c : ℚ) / total + (d : ℚ) / total) *
          ((1 + relErr) * (1 + relErr)) := by ring
      _ = 100 * ((1 + relErr) * (1 + relErr)) := by rw [hfrac]; ring
      _ < 101 := by rw [relErr]; norm_num
  have : pyPct a total + pyPct b total + pyPct c total + pyPct d total < 101 := by
    exact_mod_cast hlt
  omega

/-- Each bucket is at most the four-bucket total. -/
theorem Cats.get_le_total (cs : Cats) (c : Category) : cs.get c ≤ cs.total := by
  cases c <;> simp [Cats.get, Cats.total] <;> omega

/-- Rounded percentages of parts never exceed 100: the two binary64
roundings inflate the exact share by less than a factor `(1 + 2 ^ (-53))^2`,
so the truncated result stays below 101. -/
theorem catPercent_le_100 {tv total : Nat} (h : tv ≤ total) : catPercent tv total ≤ 100 := by
  unfold catPercent
  split
  · rename_i hpos
    exact pyPct_le_100 h hpos
  · exact Nat.zero_le _

theorem prodScore_eq_catPercent (cs : Cats) (total : Nat) :
    prodScore cs total = catPercent cs.productive total := rfl

/-- Membership of a singleton guarded by a decidable condition. -/
theorem mem_ite_singleton {α : Type} {c : Prop} [Decidable c] {x e : α} :
    (e ∈ (if c then [x] else [])) ↔ c ∧ e = x := by
  split <;> simp_all

/-- Every entry of the `categories` mapping comes from a nonzero bucket and
renders that bucket's time and truncated percentage. -/
theorem mem_buildCategories {cs : Cats} {total : Nat} {e : Category × CatEntry}
    (he : e ∈ buildCategories cs total) :
    ∃ c : Category, 0 < cs.get c ∧
      e = (c, ⟨fmt (cs.get c), catPercent (cs.get c) total⟩) := by
  simp only [buildCategories, List.mem_append, mem_ite_singleton] at he
  rcases he with ((⟨h, he⟩ | ⟨h, he⟩) | ⟨h, he⟩) | ⟨h, he⟩
  · exact ⟨Category.productive, h, he⟩
  · exact ⟨Category.entertainment, h, he⟩
  · exact ⟨Category.shopping, h, he⟩
  · exact ⟨Category.other, h, he⟩

/-- A zero four-bucket total empties the `categories` mapping. -/
theorem buildCategories_eq_nil {cs : Cats} (h : cs.total = 0) (total : Nat) :
    buildCategories cs total = [] := by
  have h1 : cs.productive = 0 := by simp [Cats.total] at h; omega
  have h2 : cs.entertainment = 0 := by simp [Cats.total] at h; omega
  have h3 : cs.shopping = 0 := by simp [Cats.total] at h; omega
  have h4 : cs.other = 0 := by simp [Cats.total] at h; omega
  simp [buildCategories, h1, h2, h3, h4]

/-- The rounded percentages of a four-way partition sum to at most 100:
the four binary64 shares total less than `100 * (1 + 2 ^ (-53))^2 < 101`. -/
theorem four_catPercent_le {a b c d total : Nat} (hpos : 0 < total)
    (hsum : a + b + c + d = total) :
    catPercent a total + catPercent b total + catPercent c total + catPercent d total ≤ 100 := by
  have e1 : catPercent a total = pyPct a total := if_pos hpos
  have e2 : catPercent b total = pyPct b total := if_pos hpos
  have e3 : catPercent c total = pyPct c total := if_pos hpos
  have e4 : catPercent d total = pyPct d total := if_pos hpos
  rw [e1, e2, e3, e4]
  exact four_pyPct_le hpos hsum
/-! ## Lemmas about the top-sites ranking -/

/-- The descending sort of the site list is `Sorted` for `siteOrder`. -/
theorem sorted_sites (l : List (String × SiteData)) :
    List.Sorted siteOrder (List.insertionSort siteOrder l) :=
  List.sorted_insertionSort siteOrder l

/-- Stability of the ranking: within one time value, the sorted list keeps
the dictionary's insertion order. -/
theorem filter_insertionSort_eq (l : List (String × SiteData)) (k : Nat) :
    (List.insertionSort siteOrder l).filter (fun x => x.2.t == k) =
      l.filter (fun x => x.2.t == k) := by
  have hpair : List.Pairwise siteOrder (l.filter (fun x => x.2.t == k)) := by
    apply List.pairwise_of_forall_mem_list
    intro a ha b hb
    have ha' : a.2.t = k := by simpa using List.of_mem_filter ha
    have hb' : b.2.t = k := by simpa using List.of_mem_filter hb
    simp [siteOrder, ha', hb']
  have hsub : List.Sublist (l.filter (fun x => x.2.t == k)) (List.insertionSort siteOrder l) :=
    List.sublist_insertionSort hpair (List.filter_sublist l)
  have hsub2 : List.Sublist (l.filter (fun x => x.2.t == k))
      ((List.insertionSort siteOrder l).filter (fun x => x.2.t == k)) := by
    have := hsub.filter (fun x => x.2.t == k)
    simpa [List.filter_filter] using this
  have hlen : ((List.insertionSort siteOrder l).filter (fun x => x.2.t == k)).length =
      (l.filter (fun x => x.2.t == k)).length :=
    ((List.perm_insertionSort siteOrder l).filter _).length_eq
  exact (hsub2.eq_of_length hlen.symm).symm

/-! ## Support lemmas for the insight messages and report shape -/

theorem toString_string (s : String) : toString s = s := rfl

theorem crushMsg_ne_balancedMsg (s : Nat) : crushMsg s ≠ balancedMsg s := by
  intro h
  have hl := congrArg String.length h
  have e1 : ("ğŸ’» " : String).length = 5 := rfl
  have e2 : ("% productive - crushing it!" : String).length = 27 := rfl
  have e3 : ("âš–ï¸ " : String).length = 6 := rfl
  have e4 : ("% productive - balanced" : String).length = 23 := rfl
  simp [crushMsg, balancedMsg, String.length_append, toString_string, e1, e2, e3, e4] at hl
  omega

theorem crushMsg_ne_wastingMsg (s : Nat) : crushMsg s ≠ wastingMsg s := by
  intro h
  have hl := congrArg String.length h
  have e1 : ("ğŸ’» " : String).length = 5 := rfl
  have e2 : ("% productive - crushing it!" : String).length = 27 := rfl
  have e3 : ("ğŸš© " : String).length = 5 := rfl
  have e4 : ("% productive - mostly time-wasting!" : String).length = 35 := rfl
  simp [crushMsg, wastingMsg, String.length_append, toString_string, e1, e2, e3, e4] at hl

theorem balancedMsg_ne_wastingMsg (s : Nat) : balancedMsg s ≠ wastingMsg s := by
  intro h
  have hl := congrArg String.length h
  have e1 : ("âš–ï¸ " : String).length = 6 := rfl
  have e2 : ("% productive - balanced" : String).length = 23 := rfl
  have e3 : ("ğŸš© " : String).length = 5 := rfl
  have e4 : ("% productive - mostly time-wasting!" : String).length = 35 := rfl
  simp [balancedMsg, wastingMsg, String.length_append, toString_string, e1, e2, e3, e4] at hl
  omega

/-- The first insight is always the tier message chosen by the score. -/
theorem quickInsights_head (s : Nat) (top : String) :
    (quickInsights s top).head? =
      some (if s > 60 then crushMsg s else if s > 30 then balancedMsg s else wastingMsg s) := rfl

/-- Unfolding of `computeMetrics` on a nonempty record list. -/
theorem computeMetrics_cons (r : BrowsingRecord) (rs : List BrowsingRecord) :
    computeMetrics (r :: rs) =
      { overview := ⟨(aggregate (r :: rs)).sites.length, (aggregate (r :: rs)).total_visits,
          fmt (aggregate (r :: rs)).total_time,
          prodScore (aggregate (r :: rs)).cats (aggregate (r :: rs)).total_time⟩
        top_sites := (topSitesOf (aggregate (r :: rs))).map (fun x => ⟨x.1, fmt x.2.t, x.2.v, x.2.c⟩)
        categories := buildCategories (aggregate (r :: rs)).cats (aggregate (r :: rs)).total_time
        insights := quickInsights
          (prodScore (aggregate (r :: rs)).cats (aggregate (r :: rs)).total_time)
          (match topSitesOf (aggregate (r :: rs)) with | [] => "" | x :: _ => x.1) } := rfl

/-- Bounded sum of the rendered percentages. -/
theorem sum_buildCategories_percent {cs : Cats} {total : Nat} (hpos : 0 < total)
    (hsum : cs.total = total) :
    ((buildCategories cs total).map (fun e => e.2.percent)).sum ≤ 100 := by
  have key := four_catPercent_le (a := cs.productive) (b := cs.entertainment)
    (c := cs.shopping) (d := cs.other) hpos (by simpa [Cats.total] using hsum)
  simp only [buildCategories, List.map_append, List.sum_append, apply_ite
    (List.map (fun e : Category × CatEntry => e.2.percent)), apply_ite List.sum,
    List.map_cons, List.map_nil, List.sum_cons, List.sum_nil]
  split_ifs <;> omega

/-! ## Claim theorems -/

/-- Input of the spec's end-to-end scenario (section 8, property 7). -/
def exRecords : List BrowsingRecord :=
  [⟨some "github.com", some 5, some 1200⟩, ⟨some "youtube.com", some 10, some 3600⟩]

/-- C1: on the two-record scenario input, the aggregator reports a total of
4,800,000 ms (rendered "1h 20m"), productivity score 25, exactly the
productive 20m/25% and entertainment 1h 0m/75% category entries, and
youtube.com as the first top site. -/
theorem end_to_end_scenario :
    totalTimeMs exRecords = 4800000 ∧
    (computeMetrics exRecords).overview.total_time = fmt 4800000 ∧
    fmt 4800000 = "1h 20m" ∧
    (computeMetrics exRecords).overview.productivity_score = 25 ∧
    (computeMetrics exRecords).categories =
      [(Category.productive, ⟨"20m", 25⟩), (Category.entertainment, ⟨"1h 0m", 75⟩)] ∧
    ((computeMetrics exRecords).top_sites.head?.map TopSite.site) = some "youtube.com" := by
  refine ⟨by decide, by decide, by decide, by decide, by decide, by decide⟩

/-- C3: the code's categorization agrees everywhere with first-match-wins
over the spec's ordered rule table; it is a pure function of the platform
string; and a platform containing both "github" and "amazon" is productive
because the coding rule precedes the shopping rule. -/
theorem categorization_first_match :
    (∀ p : String, quickCategorize p = specCategorize p) ∧
    (∀ p q : String, p = q → quickCategorize p = quickCategorize q) ∧
    quickCategorize "github.amazon.com" = Category.productive := by
  refine ⟨fun _ => rfl, fun p q h => by rw [h], by decide⟩

/-- Witness for C3 at a concrete platform string. -/
theorem categorization_first_match_witness :
    quickCategorize "GitHub.com" = quickCategorize "GitHub.com" :=
  categorization_first_match.2.1 "GitHub.com" "GitHub.com" rfl

/-- C4 counterexample: the empty-input insight string is not the bare
"No data yet - start browsing!" claimed — the source prefixes it with four
marker characters. -/
theorem empty_insight_not_bare_string :
    (computeMetrics []).insights ≠ ["No data yet - start browsing!"] := by
  decide

/-- C4 (amended): the empty record list yields exactly the canonical empty
report — zero counts, "0m", score 0, no top sites, no categories, and the
single insight string "ğŸ“Š No data yet - start browsing!" (the claimed text
preceded by the source's marker prefix); no error is raised. -/
theorem empty_report_canonical :
    computeMetrics [] = emptyMetrics ∧
    emptyMetrics =
      ⟨⟨0, 0, "0m", 0⟩, [], [], ["ğŸ“Š No data yet - start browsing!"]⟩ := by
  exact ⟨rfl, rfl⟩

/-- C5 counterexample: at score exactly 30 the first insight is the
"mostly time-wasting" message, not the "balanced" message the claim assigns
to the 30–60 inclusive band. -/
theorem tier_at_30_is_negative :
    (quickInsights 30 "").head? = some (wastingMsg 30) ∧
    wastingMsg 30 ≠ balancedMsg 30 := by
  refine ⟨by decide, by decide⟩

/-- C5 (amended): the first insight is the positive message exactly above
score 60, the balanced message exactly on 31–60, and the negative flagged
message on scores up to and including 30; the three tier messages are
pairwise distinct, so exactly one tier applies to each score. -/
theorem insight_tier_selection (s : Nat) (top : String) :
    (60 < s → (quickInsights s top).head? = some (crushMsg s)) ∧
    (30 < s ∧ s ≤ 60 → (quickInsights s top).head? = some (balancedMsg s)) ∧
    (s ≤ 30 → (quickInsights s top).head? = some (wastingMsg s)) ∧
    crushMsg s ≠ balancedMsg s ∧
    crushMsg s ≠ wastingMsg s ∧
    balancedMsg s ≠ wastingMsg s := by
  refine ⟨?_, ?_, ?_, crushMsg_ne_balancedMsg s, crushMsg_ne_wastingMsg s,
    balancedMsg_ne_wastingMsg s⟩
  · intro h
    rw [quickInsights_head]
    simp [h]
  · rintro ⟨h1, h2⟩
    have h60 : ¬ (60 < s) := by omega
    rw [quickInsights_head]
    simp [h1, h60]
  · intro h
    have h60 : ¬ (60 < s) := by omega
    have h30 : ¬ (30 < s) := by omega
    rw [quickInsights_head]
    simp [h60, h30]

/-- Witness for C5 at score 45. -/
theorem insight_tier_selection_witness :
    (quickInsights 45 "x").head? = some (balancedMsg 45) :=
  (insight_tier_selection 45 "x").2.1 ⟨by decide, by decide⟩

/-- C9: the time formatter agrees everywhere with the spec's floor-division
description, and produces "0m", "1m" and "1h 1m" on the spec's three
round-trip examples. -/
theorem fmt_spec_and_examples :
    (∀ ms : Nat, fmt ms = fmtSpec ms) ∧
    fmt 0 = "0m" ∧ fmt 90000 = "1m" ∧ fmt 3661000 = "1h 1m" :=
  ⟨fun _ => rfl, rfl, rfl, rfl⟩

/-- Projection of `computeMetrics` on a nonempty list: the score. -/
theorem computeMetrics_score_cons (r : BrowsingRecord) (rs : List BrowsingRecord) :
    (computeMetrics (r :: rs)).overview.productivity_score =
      prodScore (aggregate (r :: rs)).cats (aggregate (r :: rs)).total_time := rfl

/-- Projection of `computeMetrics` on a nonempty list: the categories. -/
theorem computeMetrics_categories_cons (r : BrowsingRecord) (rs : List BrowsingRecord) :
    (computeMetrics (r :: rs)).categories =
      buildCategories (aggregate (r :: rs)).cats (aggregate (r :: rs)).total_time := rfl

/-- Input refuting the rounded-score reading: 2000s productive of 3000s. -/
def truncRecords : List BrowsingRecord :=
  [⟨some "github.com", some 1, some 2000⟩, ⟨some "youtube.com", some 1, some 1000⟩]

/-- C2 counterexample: with productive time 2,000,000 ms of 3,000,000 ms the
code reports score 66 (truncation), while rounding the percentage as the
claim states gives 67. -/
theorem productivity_score_not_round :
    totalTimeMs truncRecords = 3000000 ∧
    catTimeRef Category.productive truncRecords = 2000000 ∧
    (computeMetrics truncRecords).overview.productivity_score = 66 ∧
    round ((100 * 2000000 : ℚ) / 3000000) = 67 := by
  refine ⟨by decide, by decide, by decide, by norm_num [round_eq]⟩

/-- C2 (amended): for positive total time the returned score is the
truncation toward zero of the binary64 evaluation of
`productive_ms / total_ms * 100` (what `int(...)` leaves of the
double-precision percentage, which can fall one below the exact-percentage
truncation); a zero total yields score 0. -/
theorem productivity_score_truncates (records : List BrowsingRecord) :
    (0 < totalTimeMs records →
      (computeMetrics records).overview.productivity_score =
        pyPct (catTimeRef Category.productive records) (totalTimeMs records)) ∧
    (totalTimeMs records = 0 →
      (computeMetrics records).overview.productivity_score = 0) := by
  cases records with
  | nil =>
    refine ⟨fun h => absurd h (by simp [totalTimeMs]), fun _ => rfl⟩
  | cons r rs =>
    have ht := aggregate_total_time (r :: rs)
    have hp : (aggregate (r :: rs)).cats.productive =
        catTimeRef Category.productive (r :: rs) :=
      aggregate_cats_get Category.productive (r :: rs)
    constructor
    · intro h
      rw [computeMetrics_score_cons]
      unfold prodScore
      rw [ht, hp, if_pos h]
    · intro h
      rw [computeMetrics_score_cons]
      unfold prodScore
      rw [ht, h]
      simp

/-- Witness for C2 on the scenario input. -/
theorem productivity_score_truncates_witness :
    (computeMetrics exRecords).overview.productivity_score =
      pyPct (catTimeRef Category.productive exRecords) (totalTimeMs exRecords) :=
  (productivity_score_truncates exRecords).1 (by decide)

/-- C6: for every input, the four category buckets sum exactly to the total
time, the per-site visit counters sum exactly to the total visits, and both
totals equal the direct sums over the input records. -/
theorem conservation_sums (records : List BrowsingRecord) :
    ((aggregate records).cats).total = (aggregate records).total_time ∧
    sumVisits (aggregate records).sites = (aggregate records).total_visits ∧
    (aggregate records).total_time = totalTimeMs records ∧
    (aggregate records).total_visits = totalVisitsRef records :=
  ⟨aggregate_cats_total records, aggregate_sumVisits records,
    aggregate_total_time records, aggregate_total_visits records⟩

/-- C7: every rendered category percent and the productivity score lie in
[0, 100] (the lower bound holds by the `Nat` typing of all quantities), and
a zero total time yields score 0 and an empty categories mapping. -/
theorem percent_bounds (records : List BrowsingRecord) :
    (∀ e ∈ (computeMetrics records).categories, e.2.percent ≤ 100) ∧
    (computeMetrics records).overview.productivity_score ≤ 100 ∧
    (totalTimeMs records = 0 →
      (computeMetrics records).categories = [] ∧
      (computeMetrics records).overview.productivity_score = 0) := by
  cases records with
  | nil =>
    refine ⟨?_, by decide, fun _ => ⟨rfl, rfl⟩⟩
    intro e he
    simp [computeMetrics, emptyMetrics] at he
  | cons r rs =>
    have ht := aggregate_total_time (r :: rs)
    have hct := aggregate_cats_total (r :: rs)
    refine ⟨?_, ?_, ?_⟩
    · intro e he
      rw [computeMetrics_categories_cons] at he
      obtain ⟨c, _, hee⟩ := mem_buildCategories he
      subst hee
      have hle : (aggregate (r :: rs)).cats.get c ≤ (aggregate (r :: rs)).total_time := by
        calc ((aggregate (r :: rs)).cats).get c ≤ ((aggregate (r :: rs)).cats).total :=
              Cats.get_le_total _ c
          _ = (aggregate (r :: rs)).total_time := hct
      simpa using catPercent_le_100 hle
    · rw [computeMetrics_score_cons, prodScore_eq_catPercent]
      apply catPercent_le_100
      calc (aggregate (r :: rs)).cats.productive ≤ ((aggregate (r :: rs)).cats).total :=
            Cats.get_le_total _ Category.productive
        _ = (aggregate (r :: rs)).total_time := hct
    · intro h
      have h0 : (aggregate (r :: rs)).total_time = 0 := by rw [ht]; exact h
      constructor
      · rw [computeMetrics_categories_cons]
        exact buildCategories_eq_nil (by rw [hct, h0]) _
      · rw [computeMetrics_score_cons]
        unfold prodScore
        rw [h0]
        simp

/-- Input whose records all carry zero time. -/
def zeroRecords : List BrowsingRecord :=
  [⟨some "idle.example", some 2, some 0⟩]

/-- Witness for C7 on an all-zero-time input. -/
theorem percent_bounds_witness :
    (computeMetrics zeroRecords).categories = [] ∧
    (computeMetrics zeroRecords).overview.productivity_score = 0 :=
  (percent_bounds zeroRecords).2.2 (by decide)

/-- Projection of `computeMetrics` on a nonempty list: the top sites. -/
theorem computeMetrics_top_sites_cons (r : BrowsingRecord) (rs : List BrowsingRecord) :
    (computeMetrics (r :: rs)).top_sites =
      (topSitesOf (aggregate (r :: rs))).map (fun x => ⟨x.1, fmt x.2.t, x.2.v, x.2.c⟩) := rfl

/-- C8: the top-sites list is the first three entries of a stable descending
sort of the site buckets by accumulated time: it is sorted descending, has
at most three entries, every entry's time is at least that of every dropped
bucket, the sort permutes the buckets, ties keep dictionary insertion order
(the restriction to any one time value is unchanged), and the report renders
exactly these entries. -/
theorem top_sites_ranking (records : List BrowsingRecord) :
    List.Sorted siteOrder (topSitesOf (aggregate records)) ∧
    (topSitesOf (aggregate records)).length ≤ 3 ∧
    (∀ x ∈ topSitesOf (aggregate records),
      ∀ y ∈ (List.insertionSort siteOrder (aggregate records).sites).drop 3,
        y.2.t ≤ x.2.t) ∧
    (List.insertionSort siteOrder (aggregate records).sites).Perm
      (aggregate records).sites ∧
    (∀ k : Nat,
      (List.insertionSort siteOrder (aggregate records).sites).filter (fun x => x.2.t == k) =
        (aggregate records).sites.filter (fun x => x.2.t == k)) ∧
    (computeMetrics records).top_sites =
      (topSitesOf (aggregate records)).map (fun x => ⟨x.1, fmt x.2.t, x.2.v, x.2.c⟩) := by
  have hsorted := sorted_sites (aggregate records).sites
  refine ⟨?_, List.length_take_le 3 _, ?_, List.perm_insertionSort siteOrder _,
    fun k => filter_insertionSort_eq _ k, ?_⟩
  · exact List.Pairwise.sublist (List.take_sublist 3 _) hsorted
  · intro x hx y hy
    have hp : List.Pairwise siteOrder
        (List.take 3 (List.insertionSort siteOrder (aggregate records).sites) ++
          List.drop 3 (List.insertionSort siteOrder (aggregate records).sites)) := by
      rw [List.take_append_drop]
      exact hsorted
    exact (List.pairwise_append.mp hp).2.2 x hx y hy
  · cases records with
    | nil => rfl
    | cons r rs => exact computeMetrics_top_sites_cons r rs

/-- Input producing four distinct site buckets. -/
def rankRecords : List BrowsingRecord :=
  [⟨some "github.com", some 1, some 400⟩, ⟨some "youtube.com", some 1, some 300⟩,
   ⟨some "amazon.com", some 1, some 200⟩, ⟨some "gmail.com", some 1, some 100⟩]

/-- Witness for C8: the dropped fourth site's time does not exceed the first
ranked site's time. -/
theorem top_sites_ranking_witness :
    (("gmail.com", (⟨1, 100000, Category.other⟩ : SiteData)) : String × SiteData).2.t ≤
      (("github.com", (⟨1, 400000, Category.productive⟩ : SiteData)) : String × SiteData).2.t :=
  (top_sites_ranking rankRecords).2.2.1 _ (by decide) _ (by decide)

/-- Input on which the binary64 percent visibly drops below the exact
truncation: 29 s productive of a 100 s total. -/
def floatRecords : List BrowsingRecord :=
  [⟨some "github.com", some 1, some 29⟩, ⟨some "youtube.com", some 1, some 71⟩]

/-- C10 counterexample: at a productive share of exactly 29% the program
reports percent 28 — `int(29000 / 100000 * 100)` evaluates `0.29 * 100` to
`28.999999999999996` in binary64 — so a reported percent is not the
truncation toward zero of its exact share (which is 29). -/
theorem percent_not_exact_truncation :
    catTimeRef Category.productive floatRecords = 29000 ∧
    totalTimeMs floatRecords = 100000 ∧
    ((computeMetrics floatRecords).categories.map (fun e => e.2.percent)) = [28, 71] ∧
    29000 * 100 / 100000 = 29 := by
  refine ⟨by decide, by decide, by decide, by decide⟩

/-- C10 (amended): with positive total time the rendered category
percentages sum to at most 100: each percent is the truncation of the
binary64 evaluation of its category's share (within relative error
`(1 + 2 ^ (-53))^2` of the exact share), and the exact shares of the four
categories partition the total, so the reported percents total below 101. -/
theorem percent_sum_le_100 (records : List BrowsingRecord)
    (h : 0 < totalTimeMs records) :
    (((computeMetrics records).categories).map (fun e => e.2.percent)).sum ≤ 100 := by
  cases records with
  | nil => simp [totalTimeMs] at h
  | cons r rs =>
    rw [computeMetrics_categories_cons]
    have hpos : 0 < (aggregate (r :: rs)).total_time := by
      rw [aggregate_total_time]
      exact h
    exact sum_buildCategories_percent hpos (aggregate_cats_total (r :: rs))

/-- Witness for C10 on the scenario input. -/
theorem percent_sum_le_100_witness :
    (((computeMetrics exRecords).categories).map (fun e => e.2.percent)).sum ≤ 100 :=
  percent_sum_le_100 exRecords (by decide)
